import Mathlib

/-!
# DerivativeValue: forward-mode automatic differentiation

A shallow embedding of `src/DerivativeValue.hpp`.

* `Eigen::Matrix<T, n, 1>` (the typedef `DValue::Vector`) is a function
  `Fin n → T`; `Eigen::Matrix<T, m, n>` is a function `Fin m → Fin n → T`.
* Coefficient access through a C++ `int` index (`gradient[i]`, `v[0]`,
  `J.row(i)`) is checked: Eigen asserts `0 ≤ index < size`, and an index
  outside that range has no defined result, which is `none` here.
* The scalar type `T` is a parameter.  Only the operations an operator really
  uses are required of it (`Add T`, `Mul T`, ...), so every definition is
  executable on any scalar type that has them.
* The host scalar functions `sin`, `cos`, `atan`, `sqrt` on `T`, which the
  header calls but does not define, are parameters of the definitions that
  call them.
* The floating literals `1.0` and `1.0/2.0` are the scalars `1` and `1 / 2`.
* The compound operators take references, so they act on a `Memory` of objects
  addressed by number; an operand is an address, and the returned reference is
  the address it denotes.
-/

namespace DerivativeValue

/-! ## Data model -/

/-- Fixed-size column vector `Eigen::Matrix<T, n, 1>` (`DValue<T, n>::Vector`). -/
abbrev Vector (T : Type) (n : Nat) : Type := Fin n → T

/-- Fixed-size matrix `Eigen::Matrix<T, m, n>`, row-indexed first. -/
abbrev Matrix (T : Type) (m n : Nat) : Type := Fin m → Fin n → T

/-- The constant `Vector::Zero()`. -/
def Vector.Zero {T : Type} [Zero T] {n : Nat} : Vector T n := fun _ => 0

/-- The size `v.rows()` of a fixed-size column vector. -/
def Vector.rows {T : Type} {n : Nat} (_v : Vector T n) : Nat := n

/-- Checked read `v[i]` with a C++ `int` index. -/
def Vector.coeff {T : Type} {n : Nat} (v : Vector T n) (i : Int) : Option T :=
  if h : 0 ≤ i ∧ i < (n : Int) then some (v ⟨i.toNat, by omega⟩) else none

/-- Checked write `v[i] = c` with a C++ `int` index. -/
def Vector.setCoeff {T : Type} {n : Nat} (v : Vector T n) (i : Int) (c : T) :
    Option (Vector T n) :=
  if h : 0 ≤ i ∧ i < (n : Int) then some (Function.update v ⟨i.toNat, by omega⟩ c) else none

/-- Checked row assignment `J.row(i) = r.transpose()`. -/
def Matrix.setRow {T : Type} {m n : Nat} (J : Matrix T m n) (i : Int) (r : Vector T n) :
    Option (Matrix T m n) :=
  if h : 0 ≤ i ∧ i < (m : Int) then some (Function.update J ⟨i.toNat, by omega⟩ r) else none

/-- The class `DValue<T, n>`: a value and its gradient. The two-argument
constructor `DValue(T _value, Vector _gradient)` is the structure constructor. -/
structure DValue (T : Type) (n : Nat) where
  value : T
  gradient : Vector T n

namespace DValue

variable {T : Type} {n : Nat}

/-- The constructor `DValue(T _value)`: the gradient is `Vector::Zero()`. -/
def ofScalar [Zero T] (_value : T) : DValue T n :=
  ⟨_value, Vector.Zero⟩

/-- The operator `operator+ (const DValue&, const DValue&)`. -/
def add [Add T] (a b : DValue T n) : DValue T n :=
  ⟨a.value + b.value, fun j => a.gradient j + b.gradient j⟩

/-- The operator `operator- (const DValue&, const DValue&)`. -/
def sub [Sub T] (a b : DValue T n) : DValue T n :=
  ⟨a.value - b.value, fun j => a.gradient j - b.gradient j⟩

/-- The unary operator `operator- (const DValue&)`. -/
def neg [Neg T] (a : DValue T n) : DValue T n :=
  ⟨-a.value, fun j => -a.gradient j⟩

/-- The operator `operator* (const DValue&, const DValue&)`:
`a.value * b.gradient + b.value * a.gradient`. -/
def mul [Add T] [Mul T] (a b : DValue T n) : DValue T n :=
  ⟨a.value * b.value, fun j => a.value * b.gradient j + b.value * a.gradient j⟩

/-- The operator `operator/ (const DValue&, const DValue&)`:
`(b.value * a.gradient - a.value * b.gradient) / (b.value*b.value)`. -/
def div [Sub T] [Mul T] [Div T] (a b : DValue T n) : DValue T n :=
  ⟨a.value / b.value,
   fun j => (b.value * a.gradient j - a.value * b.gradient j) / (b.value * b.value)⟩

instance [Add T] : Add (DValue T n) := ⟨add⟩
instance [Sub T] : Sub (DValue T n) := ⟨sub⟩
instance [Neg T] : Neg (DValue T n) := ⟨neg⟩
instance [Add T] [Mul T] : Mul (DValue T n) := ⟨mul⟩
instance [Sub T] [Mul T] [Div T] : Div (DValue T n) := ⟨div⟩

/-- The function `sin(DValue x)`; `hsin`, `hcos` are the host scalar's `sin`, `cos`. -/
def sin [Mul T] (hsin hcos : T → T) (x : DValue T n) : DValue T n :=
  ⟨hsin x.value, fun j => hcos x.value * x.gradient j⟩

/-- The function `cos(DValue x)`; `hsin`, `hcos` are the host scalar's `sin`, `cos`. -/
def cos [Neg T] [Mul T] (hsin hcos : T → T) (x : DValue T n) : DValue T n :=
  ⟨hcos x.value, fun j => -hsin x.value * x.gradient j⟩

/-- The function `atan(DValue x)`; `hatan` is the host scalar's `atan`. -/
def atan [One T] [Add T] [Mul T] [Div T] (hatan : T → T) (x : DValue T n) : DValue T n :=
  ⟨hatan x.value, fun j => 1 / (1 + x.value * x.value) * x.gradient j⟩

/-- The function `sqrt(DValue x)`; `hsqrt` is the host scalar's `sqrt`. -/
def sqrt [One T] [OfNat T 2] [Mul T] [Div T] (hsqrt : T → T) (x : DValue T n) : DValue T n :=
  ⟨hsqrt x.value, fun j => 1 / 2 / hsqrt x.value * x.gradient j⟩

end DValue

/-- The function `DVariable<T, n>(int i, T x)`: a zero gradient in which
coordinate `i` is then set to `1`. -/
def DVariable {T : Type} [Zero T] [One T] {n : Nat} (i : Int) (x : T) : Option (DValue T n) := do
  let gradient : Vector T n := Vector.Zero
  let gradient ← gradient.setCoeff i 1
  pure ⟨x, gradient⟩

/-- The function `jacobianFromVector`. `J0` is the content of the matrix `J`
right after `Eigen::Matrix<T, m, n> J(rows, cols)`, which the code leaves
unspecified; the loop then assigns row `i` for `i = 0, …, rows - 1`. -/
def jacobianFromVector {T : Type} {m n : Nat} (J0 : Matrix T m n)
    (v : Vector (DValue T n) m) : Option (Matrix T m n) := do
  let rows : Nat := Vector.rows v
  let v0 ← Vector.coeff v 0
  let _cols : Nat := Vector.rows v0.gradient
  (List.range rows).foldlM
    (fun (J : Matrix T m n) (i : Nat) => do
      let vi ← Vector.coeff v (i : Int)
      Matrix.setRow J (i : Int) vi.gradient)
    J0

/-! ## Default construction, arithmetic with scalars, matrix lift, scalar traits -/

namespace DValue

variable {T : Type} {n : Nat}

/-- The operator `operator+ (const T& a, const DValue& b)`. -/
def scalar_add [Add T] (a : T) (b : DValue T n) : DValue T n :=
  ⟨a + b.value, b.gradient⟩

/-- The operator `operator+ (const DValue& b, const T& a)`. -/
def add_scalar [Add T] (b : DValue T n) (a : T) : DValue T n :=
  ⟨a + b.value, b.gradient⟩

/-- The operator `operator- (const T& a, const DValue& b)`. -/
def scalar_sub [Sub T] [Neg T] (a : T) (b : DValue T n) : DValue T n :=
  ⟨a - b.value, fun j => -b.gradient j⟩

/-- The operator `operator- (const DValue& b, const T& a)`. -/
def sub_scalar [Sub T] (b : DValue T n) (a : T) : DValue T n :=
  ⟨b.value - a, b.gradient⟩

/-- The operator `operator* (const T& a, const DValue& b)`. -/
def scalar_mul [Mul T] (a : T) (b : DValue T n) : DValue T n :=
  ⟨a * b.value, fun j => a * b.gradient j⟩

/-- The operator `operator* (const DValue& b, const T& a)`. -/
def mul_scalar [Mul T] (b : DValue T n) (a : T) : DValue T n :=
  ⟨a * b.value, fun j => a * b.gradient j⟩

/-- The operator `operator/ (const T& a, const DValue& b)`:
`-a / b.value / b.value * b.gradient`. -/
def scalar_div [Neg T] [Mul T] [Div T] (a : T) (b : DValue T n) : DValue T n :=
  ⟨a / b.value, fun j => -a / b.value / b.value * b.gradient j⟩

/-- The operator `operator/ (const DValue& b, const T& a)`. -/
def div_scalar [Div T] (b : DValue T n) (a : T) : DValue T n :=
  ⟨b.value / a, fun j => b.gradient j / a⟩

end DValue

/-- The function `toDValue<n>(M)`: `M.cast<DValue<T, n>>()` converts every
coefficient with the converting constructor `DValue(T _value)`. -/
def toDValue {T : Type} [Zero T] (n : Nat) {rows cols : Nat} (M : Matrix T rows cols) :
    Matrix (DValue T n) rows cols :=
  fun r c => DValue.ofScalar (M r c)

/-- The members that `Eigen::NumTraits<DValue<T, n>>` declares itself: three
type names and the values of its `enum`. -/
structure NumTraits where
  Real : Type
  NonInteger : Type
  Nested : Type
  IsComplex : Int
  IsInteger : Int
  IsSigned : Int
  RequireInitialization : Int
  ReadCost : Int
  AddCost : Int
  MulCost : Int

/-- The specialisation `Eigen::NumTraits<DValue<T, n>>`. -/
def NumTraits_DValue (T : Type) (n : Nat) : NumTraits where
  Real := DValue T n
  NonInteger := DValue T n
  Nested := DValue T n
  IsComplex := 0
  IsInteger := 0
  IsSigned := 1
  RequireInitialization := 1
  ReadCost := 1
  AddCost := 3
  MulCost := 3

/-! ## Compound assignment

The compound operators take their left operand by reference and their right
operand by `const` reference, so they are modelled on a memory of objects: the
operands are addresses, and the same address may be passed twice. -/

/-- The objects a computation holds: the `DValue<T, n>` objects and the
separate scalar objects, each by address. -/
structure Memory (T : Type) (n : Nat) where
  dual : Nat → DValue T n
  scalar : Nat → T

/-- What a `const T&` can be bound to: a scalar object, the member `value` of a
`DValue` object, or a coefficient of its member `gradient`. -/
inductive ScalarRef (n : Nat) where
  | scalar (x : Nat) : ScalarRef n
  | value (a : Nat) : ScalarRef n
  | gradient (a : Nat) (j : Fin n) : ScalarRef n

namespace Memory

variable {T : Type} {n : Nat}

/-- The scalar a `const T&` refers to. -/
def read (s : Memory T n) : ScalarRef n → T
  | ScalarRef.scalar x => s.scalar x
  | ScalarRef.value a => (s.dual a).value
  | ScalarRef.gradient a j => (s.dual a).gradient j

/-- The assignment `a = d` to the `DValue` object at address `a`. -/
def assign (s : Memory T n) (a : Nat) (d : DValue T n) : Memory T n :=
  { s with dual := Function.update s.dual a d }

end Memory

/-- The reference `b` points into the `DValue` object at address `a`. -/
def ScalarRef.memberOf {n : Nat} : ScalarRef n → Nat → Prop
  | ScalarRef.scalar _, _ => False
  | ScalarRef.value c, a => c = a
  | ScalarRef.gradient c _, a => c = a

section CompoundAssignment

variable {T : Type} {n : Nat}

/-- The operator `operator+= (DValue& a, const T& b)`: `a = a+b; return a;`.
The second component is the address the returned reference denotes. -/
def add_assign_scalar [Add T] (s : Memory T n) (a : Nat) (b : ScalarRef n) : Memory T n × Nat :=
  (s.assign a (DValue.add_scalar (s.dual a) (s.read b)), a)

/-- The operator `operator-= (DValue& a, const T& b)`: `a = a-b; return a;`. -/
def sub_assign_scalar [Sub T] (s : Memory T n) (a : Nat) (b : ScalarRef n) : Memory T n × Nat :=
  (s.assign a (DValue.sub_scalar (s.dual a) (s.read b)), a)

/-- The operator `operator*= (DValue& a, const T& b)`: `a = a*b; return a;`. -/
def mul_assign_scalar [Mul T] (s : Memory T n) (a : Nat) (b : ScalarRef n) : Memory T n × Nat :=
  (s.assign a (DValue.mul_scalar (s.dual a) (s.read b)), a)

/-- The operator `operator/= (DValue& a, const T& b)`: `a = a/b; return a;`. -/
def div_assign_scalar [Div T] (s : Memory T n) (a : Nat) (b : ScalarRef n) : Memory T n × Nat :=
  (s.assign a (DValue.div_scalar (s.dual a) (s.read b)), a)

/-- The operator `operator+= (DValue& a, const DValue& b)`: `a = a+b; return a;`. -/
def add_assign [Add T] (s : Memory T n) (a b : Nat) : Memory T n × Nat :=
  (s.assign a (s.dual a + s.dual b), a)

/-- The operator `operator-= (DValue& a, const DValue& b)`: `a = a-b; return a;`. -/
def sub_assign [Sub T] (s : Memory T n) (a b : Nat) : Memory T n × Nat :=
  (s.assign a (s.dual a - s.dual b), a)

/-- The operator `operator*= (DValue& a, const DValue& b)`: `a = a*b; return a;`. -/
def mul_assign [Add T] [Mul T] (s : Memory T n) (a b : Nat) : Memory T n × Nat :=
  (s.assign a (s.dual a * s.dual b), a)

/-- The operator `operator/= (DValue& a, const DValue& b)`: `a = a/b; return a;`. -/
def div_assign [Sub T] [Mul T] [Div T] (s : Memory T n) (a b : Nat) : Memory T n × Nat :=
  (s.assign a (s.dual a / s.dual b), a)

end CompoundAssignment

/-! ## The operations of the header, one by one

`BinOp` names the four operators `+ - * /`, so that a statement can range over
them; `Call` is one call of one operation of the header with its arguments and
`Call.run` makes that call. -/

/-- The operators `+`, `-`, `*`, `/`. -/
inductive BinOp where
  | add : BinOp
  | sub : BinOp
  | mul : BinOp
  | div : BinOp

namespace BinOp

variable {T : Type} {n : Nat}

/-- The operator `operator<op> (const DValue& b, const T& a)`. -/
def dual_scalar [Add T] [Sub T] [Mul T] [Div T] : BinOp → DValue T n → T → DValue T n
  | add => DValue.add_scalar
  | sub => DValue.sub_scalar
  | mul => DValue.mul_scalar
  | div => DValue.div_scalar

/-- The operator `operator<op> (const DValue& a, const DValue& b)`. -/
def dual_dual [Add T] [Sub T] [Mul T] [Div T] : BinOp → DValue T n → DValue T n → DValue T n
  | add => DValue.add
  | sub => DValue.sub
  | mul => DValue.mul
  | div => DValue.div

/-- The operator `operator<op>= (DValue& a, const T& b)`. -/
def assign_scalar [Add T] [Sub T] [Mul T] [Div T] :
    BinOp → Memory T n → Nat → ScalarRef n → Memory T n × Nat
  | add => add_assign_scalar
  | sub => sub_assign_scalar
  | mul => mul_assign_scalar
  | div => div_assign_scalar

/-- The operator `operator<op>= (DValue& a, const DValue& b)`. -/
def assign_dual [Add T] [Sub T] [Mul T] [Div T] :
    BinOp → Memory T n → Nat → Nat → Memory T n × Nat
  | add => add_assign
  | sub => sub_assign
  | mul => mul_assign
  | div => div_assign

end BinOp

namespace Call

variable {T : Type} {n m rows cols : Nat}

end Call

/-! ## Expressions over seeded variables

The programs the correctness claim is about: expressions a caller writes with
the seeds `DVariable(i, p_i)`, constant lifts and the overloaded operators and
functions. `Expr.eval` reads such an expression as an ordinary scalar
expression; `Expr.dual` runs it with the operators of the header. -/

/-- Expressions in `n` independent variables over the scalar type `T`. -/
inductive Expr (T : Type) (n : Nat) where
  | var (i : Fin n) : Expr T n
  | const (c : T) : Expr T n
  | add (a b : Expr T n) : Expr T n
  | sub (a b : Expr T n) : Expr T n
  | mul (a b : Expr T n) : Expr T n
  | div (a b : Expr T n) : Expr T n
  | neg (a : Expr T n) : Expr T n
  | sin (a : Expr T n) : Expr T n
  | cos (a : Expr T n) : Expr T n
  | atan (a : Expr T n) : Expr T n
  | sqrt (a : Expr T n) : Expr T n

namespace Expr

variable {T : Type} {n : Nat}

/-- The expression as an ordinary scalar expression, evaluated at the point `p`. -/
def eval [Field T] (hsin hcos hatan hsqrt : T → T) (p : Fin n → T) : Expr T n → T
  | var i => p i
  | const c => c
  | add a b => eval hsin hcos hatan hsqrt p a + eval hsin hcos hatan hsqrt p b
  | sub a b => eval hsin hcos hatan hsqrt p a - eval hsin hcos hatan hsqrt p b
  | mul a b => eval hsin hcos hatan hsqrt p a * eval hsin hcos hatan hsqrt p b
  | div a b => eval hsin hcos hatan hsqrt p a / eval hsin hcos hatan hsqrt p b
  | neg a => -eval hsin hcos hatan hsqrt p a
  | sin a => hsin (eval hsin hcos hatan hsqrt p a)
  | cos a => hcos (eval hsin hcos hatan hsqrt p a)
  | atan a => hatan (eval hsin hcos hatan hsqrt p a)
  | sqrt a => hsqrt (eval hsin hcos hatan hsqrt p a)

/-- The dual value the header computes for the expression: variable `i` is the
seed `DVariable(i, p_i)`, a constant is `DValue(c)`, and every operator and
function is the overload for `DValue`. -/
def dual [Field T] (hsin hcos hatan hsqrt : T → T) (p : Fin n → T) :
    Expr T n → Option (DValue T n)
  | var i => DVariable ((i : Nat) : Int) (p i)
  | const c => some (DValue.ofScalar c)
  | add a b => do
      let x ← dual hsin hcos hatan hsqrt p a
      let y ← dual hsin hcos hatan hsqrt p b
      pure (x + y)
  | sub a b => do
      let x ← dual hsin hcos hatan hsqrt p a
      let y ← dual hsin hcos hatan hsqrt p b
      pure (x - y)
  | mul a b => do
      let x ← dual hsin hcos hatan hsqrt p a
      let y ← dual hsin hcos hatan hsqrt p b
      pure (x * y)
  | div a b => do
      let x ← dual hsin hcos hatan hsqrt p a
      let y ← dual hsin hcos hatan hsqrt p b
      pure (x / y)
  | neg a => do
      let x ← dual hsin hcos hatan hsqrt p a
      pure (-x)
  | sin a => do
      let x ← dual hsin hcos hatan hsqrt p a
      pure (DValue.sin hsin hcos x)
  | cos a => do
      let x ← dual hsin hcos hatan hsqrt p a
      pure (DValue.cos hsin hcos x)
  | atan a => do
      let x ← dual hsin hcos hatan hsqrt p a
      pure (DValue.atan hatan x)
  | sqrt a => do
      let x ← dual hsin hcos hatan hsqrt p a
      pure (DValue.sqrt hsqrt x)

/-- At the point `p` every divisor of the expression has a nonzero value and
every argument of `sqrt` has a positive value. -/
def Admissible [Field T] [LT T] (hsin hcos hatan hsqrt : T → T) (p : Fin n → T) :
    Expr T n → Prop
  | var _ => True
  | const _ => True
  | add a b => Admissible hsin hcos hatan hsqrt p a ∧ Admissible hsin hcos hatan hsqrt p b
  | sub a b => Admissible hsin hcos hatan hsqrt p a ∧ Admissible hsin hcos hatan hsqrt p b
  | mul a b => Admissible hsin hcos hatan hsqrt p a ∧ Admissible hsin hcos hatan hsqrt p b
  | div a b => Admissible hsin hcos hatan hsqrt p a ∧ Admissible hsin hcos hatan hsqrt p b ∧
      eval hsin hcos hatan hsqrt p b ≠ 0
  | neg a => Admissible hsin hcos hatan hsqrt p a
  | sin a => Admissible hsin hcos hatan hsqrt p a
  | cos a => Admissible hsin hcos hatan hsqrt p a
  | atan a => Admissible hsin hcos hatan hsqrt p a
  | sqrt a => Admissible hsin hcos hatan hsqrt p a ∧ 0 < eval hsin hcos hatan hsqrt p a

end Expr

/-! ## Basic facts about the embedding -/

theorem Vector.coeff_fin {T : Type} {n : Nat} (v : Vector T n) (i : Fin n) :
    Vector.coeff v ((i : Nat) : Int) = some (v i) := by
  have h : 0 ≤ ((i : Nat) : Int) ∧ ((i : Nat) : Int) < (n : Int) :=
    ⟨Int.ofNat_nonneg _, by exact_mod_cast i.isLt⟩
  simp [Vector.coeff, h]

theorem Vector.setCoeff_fin {T : Type} {n : Nat} (v : Vector T n) (i : Fin n) (c : T) :
    Vector.setCoeff v ((i : Nat) : Int) c = some (Function.update v i c) := by
  have h : 0 ≤ ((i : Nat) : Int) ∧ ((i : Nat) : Int) < (n : Int) :=
    ⟨Int.ofNat_nonneg _, by exact_mod_cast i.isLt⟩
  simp [Vector.setCoeff, h]

theorem Matrix.setRow_fin {T : Type} {m n : Nat} (J : Matrix T m n) (i : Fin m)
    (r : Vector T n) :
    Matrix.setRow J ((i : Nat) : Int) r = some (Function.update J i r) := by
  have h : 0 ≤ ((i : Nat) : Int) ∧ ((i : Nat) : Int) < (m : Int) :=
    ⟨Int.ofNat_nonneg _, by exact_mod_cast i.isLt⟩
  simp [Matrix.setRow, h]

theorem DVariable_fin {T : Type} [Zero T] [One T] {n : Nat} (i : Fin n) (x : T) :
    (DVariable ((i : Nat) : Int) x : Option (DValue T n))
      = some ⟨x, Function.update Vector.Zero i 1⟩ := by
  simp [DVariable, Vector.setCoeff_fin]

/-- The loop of `jacobianFromVector` after its first `k` rounds: rows below `k`
hold the gradients, the other rows still hold the initial content. -/
theorem jacobian_loop_prefix {T : Type} {m n : Nat} (J0 : Matrix T m n)
    (v : Vector (DValue T n) m) (k : Nat) (hk : k ≤ m) :
    (List.range k).foldlM
        (fun (J : Matrix T m n) (i : Nat) => do
          let vi ← Vector.coeff v (i : Int)
          Matrix.setRow J (i : Int) vi.gradient)
        J0
      = some (fun i : Fin m => if (i : Nat) < k then (v i).gradient else J0 i) := by
  induction k with
  | zero => simp
  | succ k ih =>
    have hlt : k < m := hk
    have hc := Vector.coeff_fin v ⟨k, hlt⟩
    have hs := fun J : Matrix T m n => Matrix.setRow_fin J ⟨k, hlt⟩ (v ⟨k, hlt⟩).gradient
    simp only at hc hs
    rw [List.range_succ, List.foldlM_append, ih (Nat.le_of_lt hlt)]
    simp only [Option.some_bind, List.foldlM_cons, List.foldlM_nil, hc, hs, Option.bind_some,
      Option.some.injEq, Option.bind_eq_bind, Option.pure_def]
    funext i
    by_cases hik : i = ⟨k, hlt⟩
    · subst hik
      simp
    · have hne : (i : Nat) ≠ k := fun h => hik (Fin.ext h)
      rw [Function.update_noteq hik]
      by_cases h1 : (i : Nat) < k
      · simp [h1, Nat.lt_succ_of_lt h1]
      · have h2 : ¬ (i : Nat) < k + 1 := by omega
        simp [h1, h2]

/-- With at least one entry, `jacobianFromVector` returns the matrix of gradients. -/
theorem jacobianFromVector_eq {T : Type} {m n : Nat} (J0 : Matrix T m n)
    (v : Vector (DValue T n) m) (hm : 1 ≤ m) :
    jacobianFromVector J0 v = some (fun i => (v i).gradient) := by
  have h0 := Vector.coeff_fin v ⟨0, hm⟩
  simp only [Nat.cast_zero] at h0
  have hloop := jacobian_loop_prefix J0 v m (Nat.le_refl m)
  simp only [jacobianFromVector, h0, Vector.rows, Option.bind_eq_bind, Option.some_bind]
  refine hloop.trans ?_
  congr 1
  funext i
  simp [i.isLt]

/-- The line through `p` along coordinate `i` passes through `p` at `t = p i`. -/
theorem update_self_point {n : Nat} (p : Fin n → ℝ) (i : Fin n) :
    Function.update p i (p i) = p := Function.update_eq_self i p

/-- Two dual values with the same value and the same gradient components are equal. -/
theorem DValue.eq_of {T : Type} {n : Nat} {a b : DValue T n} (hv : a.value = b.value)
    (hg : ∀ j : Fin n, a.gradient j = b.gradient j) : a = b := by
  cases a
  cases b
  simp only [DValue.mk.injEq]
  exact ⟨hv, funext hg⟩

/-- The checked accesses succeed exactly for an index in range. -/
theorem Vector.coeff_isSome_iff {T : Type} {n : Nat} (v : Vector T n) (i : Int) :
    (∃ c : T, Vector.coeff v i = some c) ↔ (0 ≤ i ∧ i < (n : Int)) := by
  unfold Vector.coeff
  by_cases h : 0 ≤ i ∧ i < (n : Int)
  · simp [h]
  · simp [h]

theorem Vector.setCoeff_isSome_iff {T : Type} {n : Nat} (v : Vector T n) (i : Int) (c : T) :
    (∃ w : Vector T n, Vector.setCoeff v i c = some w) ↔ (0 ≤ i ∧ i < (n : Int)) := by
  unfold Vector.setCoeff
  by_cases h : 0 ≤ i ∧ i < (n : Int)
  · simp [h]
  · simp [h]

theorem DVariable_isSome_iff {T : Type} [Zero T] [One T] {n : Nat} (i : Int) (x : T) :
    (∃ d : DValue T n, DVariable i x = some d) ↔ (0 ≤ i ∧ i < (n : Int)) := by
  by_cases h : 0 ≤ i ∧ i < (n : Int)
  · simp [DVariable, Vector.setCoeff, h]
  · simp [DVariable, Vector.setCoeff, h]

theorem jacobianFromVector_isSome_iff {T : Type} {m n : Nat} (J0 : Matrix T m n)
    (v : Vector (DValue T n) m) :
    (∃ J : Matrix T m n, jacobianFromVector J0 v = some J) ↔ 1 ≤ m := by
  constructor
  · rintro ⟨J, hJ⟩
    by_contra hm
    have h0 : m = 0 := by omega
    subst h0
    simp [jacobianFromVector, Vector.coeff] at hJ
  · intro hm
    exact ⟨_, jacobianFromVector_eq J0 v hm⟩

/-! ## Seeding and constant lift -/

/-- C2: for every dimension `n`, every index `i` with `0 ≤ i < n` and every
scalar `x`, `DVariable(i, x)` returns a dual value whose value is `x`, whose
`gradient[i]` is `1` and whose `gradient[j]` is `0` for every other `j < n`.
With `n = 2`, `DVariable(0, 1.0)` has gradient `[1, 0]` and `DVariable(1, 2.0)`
has gradient `[0, 1]`. -/
theorem DVariable_one_hot :
    (∀ (T : Type) [Zero T] [One T] (n : Nat) (i : Fin n) (x : T),
      ∃ d : DValue T n, DVariable ((i : Nat) : Int) x = some d ∧ d.value = x ∧
        d.gradient i = 1 ∧ ∀ j : Fin n, d.gradient j = if j = i then 1 else 0) ∧
    (∃ x y : DValue ℝ 2, DVariable 0 1 = some x ∧ DVariable 1 2 = some y ∧
      x.value = 1 ∧ y.value = 2 ∧ x.gradient = ![1, 0] ∧ y.gradient = ![0, 1]) := by
  refine ⟨?_, ?_⟩
  · intro T _ _ n i x
    refine ⟨_, DVariable_fin i x, rfl, by simp, ?_⟩
    intro j
    by_cases h : j = i
    · subst h; simp
    · simp [Function.update_noteq h, Vector.Zero, h]
  · refine ⟨_, _, DVariable_fin (0 : Fin 2) (1 : ℝ), DVariable_fin (1 : Fin 2) (2 : ℝ),
      rfl, rfl, ?_, ?_⟩
    · funext j; fin_cases j <;> simp [Vector.Zero]
    · funext j; fin_cases j <;> simp [Vector.Zero]

/-- C10: for every scalar `c` and every dimension `n`, the dual value built
from `c` alone, `DValue(c)`, has value `c` and `gradient[j] = 0` for every
`j < n`. -/
theorem ofScalar_value_gradient (T : Type) [Zero T] (n : Nat) (c : T) :
    (DValue.ofScalar c : DValue T n).value = c ∧
      ∀ j : Fin n, (DValue.ofScalar c : DValue T n).gradient j = 0 :=
  ⟨rfl, fun _ => rfl⟩

/-! ## Arithmetic between dual values -/

/-- C3: product rule. For all dual values `a`, `b` of dimension `n`,
`(a * b).value = a.value * b.value` and, for every `j < n`,
`(a * b).gradient[j] = a.value * b.gradient[j] + b.value * a.gradient[j]`.
With `n = 2`, `x = DVariable(0, 1.0)` and `y = DVariable(1, 2.0)`, the product
`x * y` has value `2.0` and gradient `[2.0, 1.0]`. -/
theorem mul_product_rule :
    (∀ (T : Type) [Add T] [Mul T] (n : Nat) (a b : DValue T n),
      (a * b).value = a.value * b.value ∧
        ∀ j : Fin n, (a * b).gradient j = a.value * b.gradient j + b.value * a.gradient j) ∧
    (∃ x y : DValue ℝ 2, DVariable 0 1 = some x ∧ DVariable 1 2 = some y ∧
      (x * y).value = 2 ∧ (x * y).gradient = ![2, 1]) := by
  refine ⟨fun T _ _ n a b => ⟨rfl, fun _ => rfl⟩, ?_⟩
  refine ⟨_, _, DVariable_fin (0 : Fin 2) (1 : ℝ), DVariable_fin (1 : Fin 2) (2 : ℝ), ?_, ?_⟩
  · show (1 : ℝ) * 2 = 2
    norm_num
  · funext j
    show (1 : ℝ) * Function.update (Vector.Zero : Vector ℝ 2) 1 1 j
        + 2 * Function.update (Vector.Zero : Vector ℝ 2) 0 1 j = ![2, 1] j
    fin_cases j <;> simp [Vector.Zero]

/-- C4: quotient rule. For all dual values `a`, `b` of dimension `n`,
`(a / b).value = a.value / b.value` and, for every `j < n`,
`(a / b).gradient[j]
  = (b.value * a.gradient[j] - a.value * b.gradient[j]) / (b.value * b.value)`. -/
theorem div_quotient_rule (T : Type) [Sub T] [Mul T] [Div T] (n : Nat) (a b : DValue T n) :
    (a / b).value = a.value / b.value ∧
      ∀ j : Fin n, (a / b).gradient j
        = (b.value * a.gradient j - a.value * b.gradient j) / (b.value * b.value) :=
  ⟨rfl, fun _ => rfl⟩

/-- C5: addition, subtraction and unary negation act componentwise. For all
dual values `a`, `b` of dimension `n` and every `j < n`: `a + b` has value
`a.value + b.value` and `gradient[j] = a.gradient[j] + b.gradient[j]`; `a - b`
has value `a.value - b.value` and `gradient[j] = a.gradient[j] - b.gradient[j]`;
`-a` has value `-a.value` and `gradient[j] = -a.gradient[j]`. -/
theorem add_sub_neg_componentwise (T : Type) [Add T] [Sub T] [Neg T] (n : Nat)
    (a b : DValue T n) :
    ((a + b).value = a.value + b.value ∧
        ∀ j : Fin n, (a + b).gradient j = a.gradient j + b.gradient j) ∧
      ((a - b).value = a.value - b.value ∧
        ∀ j : Fin n, (a - b).gradient j = a.gradient j - b.gradient j) ∧
      ((-a).value = -a.value ∧ ∀ j : Fin n, (-a).gradient j = -a.gradient j) :=
  ⟨⟨rfl, fun _ => rfl⟩, ⟨rfl, fun _ => rfl⟩, ⟨rfl, fun _ => rfl⟩⟩

/-! ## Transcendental functions -/

/-- C6: for every dual value `x` of dimension `n` and every `j < n`, `sin(x)`
has value `sin(x.value)` and `gradient[j] = cos(x.value) * x.gradient[j]`, and
`cos(x)` has value `cos(x.value)` and
`gradient[j] = -sin(x.value) * x.gradient[j]`. With `n = 2`,
`sin(DVariable(0, 1.0))` has value `sin 1` and gradient `[cos 1, 0]`. -/
theorem sin_cos_chain_rule :
    (∀ (T : Type) [Neg T] [Mul T] (hsin hcos : T → T) (n : Nat) (x : DValue T n),
      ((DValue.sin hsin hcos x).value = hsin x.value ∧
        ∀ j : Fin n, (DValue.sin hsin hcos x).gradient j = hcos x.value * x.gradient j) ∧
      ((DValue.cos hsin hcos x).value = hcos x.value ∧
        ∀ j : Fin n, (DValue.cos hsin hcos x).gradient j = -hsin x.value * x.gradient j)) ∧
    (∃ x : DValue ℝ 2, DVariable 0 1 = some x ∧
      (DValue.sin Real.sin Real.cos x).value = Real.sin 1 ∧
      (DValue.sin Real.sin Real.cos x).gradient = ![Real.cos 1, 0]) := by
  refine ⟨fun T _ _ hsin hcos n x => ⟨⟨rfl, fun _ => rfl⟩, ⟨rfl, fun _ => rfl⟩⟩, ?_⟩
  refine ⟨_, DVariable_fin (0 : Fin 2) (1 : ℝ), rfl, ?_⟩
  funext j
  show Real.cos 1 * Function.update (Vector.Zero : Vector ℝ 2) 0 1 j = ![Real.cos 1, 0] j
  fin_cases j <;> simp [Vector.Zero]

/-- C7: for every real dual value `x` of dimension `n`, `atan(x)` has value
`atan(x.value)` and, for every `j < n`,
`gradient[j] = x.gradient[j] / (1 + x.value * x.value)`; the factor
`1 / (1 + x.value * x.value)` of the code is the derivative of `atan` at
`x.value`, so `gradient[j]` is that derivative times `x.gradient[j]`. -/
theorem atan_chain_rule (n : Nat) (x : DValue ℝ n) :
    (DValue.atan Real.arctan x).value = Real.arctan x.value ∧
      (∀ j : Fin n,
        (DValue.atan Real.arctan x).gradient j = x.gradient j / (1 + x.value * x.value)) ∧
      HasDerivAt Real.arctan (1 / (1 + x.value * x.value)) x.value ∧
      (∀ j : Fin n,
        (DValue.atan Real.arctan x).gradient j = deriv Real.arctan x.value * x.gradient j) := by
  have hd : HasDerivAt Real.arctan (1 / (1 + x.value * x.value)) x.value := by
    have h := Real.hasDerivAt_arctan x.value
    rwa [pow_two] at h
  refine ⟨rfl, fun j => ?_, hd, fun j => ?_⟩
  · show 1 / (1 + x.value * x.value) * x.gradient j = x.gradient j / (1 + x.value * x.value)
    ring
  · rw [hd.deriv]
    rfl

/-- C8: for every real dual value `x` of dimension `n` with `x.value > 0`,
`sqrt(x)` has value `sqrt(x.value)` and, for every `j < n`,
`gradient[j] = x.gradient[j] / (2 * sqrt(x.value))`; the factor
`1 / 2 / sqrt(x.value)` of the code is the derivative of `sqrt` at `x.value`,
so `gradient[j]` is that derivative times `x.gradient[j]`. -/
theorem sqrt_chain_rule (n : Nat) (x : DValue ℝ n) (hx : 0 < x.value) :
    (DValue.sqrt Real.sqrt x).value = Real.sqrt x.value ∧
      (∀ j : Fin n,
        (DValue.sqrt Real.sqrt x).gradient j = x.gradient j / (2 * Real.sqrt x.value)) ∧
      HasDerivAt Real.sqrt (1 / 2 / Real.sqrt x.value) x.value ∧
      (∀ j : Fin n,
        (DValue.sqrt Real.sqrt x).gradient j = deriv Real.sqrt x.value * x.gradient j) := by
  have hd : HasDerivAt Real.sqrt (1 / 2 / Real.sqrt x.value) x.value := by
    have h := Real.hasDerivAt_sqrt (ne_of_gt hx)
    have e : 1 / 2 / Real.sqrt x.value = 1 / (2 * Real.sqrt x.value) := by
      rw [div_div]
    rwa [e]
  refine ⟨rfl, fun j => ?_, hd, fun j => ?_⟩
  · show 1 / 2 / Real.sqrt x.value * x.gradient j = x.gradient j / (2 * Real.sqrt x.value)
    rw [div_div, one_div, mul_comm, div_eq_mul_inv]
  · rw [hd.deriv]
    rfl

/-- Witness for C8 at the dual value with value `4` and gradient `[1, 0]`. -/
theorem sqrt_chain_rule_witness :
    (DValue.sqrt Real.sqrt (⟨4, ![1, 0]⟩ : DValue ℝ 2)).value = Real.sqrt 4 ∧
      (∀ j : Fin 2, (DValue.sqrt Real.sqrt (⟨4, ![1, 0]⟩ : DValue ℝ 2)).gradient j
        = (![1, 0] : Fin 2 → ℝ) j / (2 * Real.sqrt 4)) ∧
      HasDerivAt Real.sqrt (1 / 2 / Real.sqrt 4) 4 ∧
      (∀ j : Fin 2, (DValue.sqrt Real.sqrt (⟨4, ![1, 0]⟩ : DValue ℝ 2)).gradient j
        = deriv Real.sqrt 4 * (![1, 0] : Fin 2 → ℝ) j) :=
  sqrt_chain_rule 2 ⟨4, ![1, 0]⟩ (by norm_num)

/-! ## Jacobian extraction -/

/-- C9: Jacobian stacking. For every `m ≥ 1`, every `n` and every vector `v` of
`m` dual values of dimension `n`, `jacobianFromVector(v)` returns an `m × n`
matrix `J` with `J[i][j] = v[i].gradient[j]` for every `i < m`, `j < n`,
whatever the matrix held before the loop; and any vector `w` whose entries have
the same gradients as those of `v`, whatever their values, gives the same `J`. -/
theorem jacobianFromVector_stacks (T : Type) (m n : Nat) (J0 : Matrix T m n)
    (v : Vector (DValue T n) m) (hm : 1 ≤ m) :
    ∃ J : Matrix T m n, jacobianFromVector J0 v = some J ∧
      (∀ (i : Fin m) (j : Fin n), J i j = (v i).gradient j) ∧
      ∀ (K0 : Matrix T m n) (w : Vector (DValue T n) m),
        (∀ i : Fin m, (w i).gradient = (v i).gradient) → jacobianFromVector K0 w = some J := by
  refine ⟨_, jacobianFromVector_eq J0 v hm, fun _ _ => rfl, fun K0 w hw => ?_⟩
  rw [jacobianFromVector_eq K0 w hm]
  congr 1
  funext i
  exact hw i

/-- Witness for C9: two real dual values of dimension `2`. -/
theorem jacobianFromVector_stacks_witness :
    ∃ J : Matrix ℝ 2 2,
      jacobianFromVector (fun _ _ => 7) (![⟨5, ![1, 2]⟩, ⟨6, ![3, 4]⟩] : Vector (DValue ℝ 2) 2)
        = some J ∧
      (∀ (i : Fin 2) (j : Fin 2),
        J i j = ((![⟨5, ![1, 2]⟩, ⟨6, ![3, 4]⟩] : Vector (DValue ℝ 2) 2) i).gradient j) ∧
      ∀ (K0 : Matrix ℝ 2 2) (w : Vector (DValue ℝ 2) 2),
        (∀ i : Fin 2, (w i).gradient
          = ((![⟨5, ![1, 2]⟩, ⟨6, ![3, 4]⟩] : Vector (DValue ℝ 2) 2) i).gradient) →
        jacobianFromVector K0 w = some J :=
  jacobianFromVector_stacks ℝ 2 2 (fun _ _ => 7) ![⟨5, ![1, 2]⟩, ⟨6, ![3, 4]⟩] (by decide)


/-! ## Forward-mode correctness -/

/-- C1: forward-mode correctness over the reals. For every `n`, every point
`p` in `ℝ^n` and every expression `e` built from the seeds `DVariable(i, p_i)`,
constant lifts, `+ - * /`, unary negation, `sin`, `cos`, `atan` and `sqrt`: if
at `p` every divisor has a nonzero value and every `sqrt` argument a positive
value, then the header computes a dual value `d` for `e`, `d.value` is `e`
evaluated at `p` as an ordinary real expression, and for every `i < n`
`d.gradient[i]` is the partial derivative of `e` in variable `i` at `p`, the
derivative at `t = p_i` of `e` along the line that moves coordinate `i` of `p`. -/
theorem forward_mode_correct (n : Nat) (p : Fin n → ℝ) (e : Expr ℝ n)
    (h : e.Admissible Real.sin Real.cos Real.arctan Real.sqrt p) :
    ∃ d : DValue ℝ n, e.dual Real.sin Real.cos Real.arctan Real.sqrt p = some d ∧
      d.value = e.eval Real.sin Real.cos Real.arctan Real.sqrt p ∧
      ∀ i : Fin n,
        HasDerivAt
          (fun t : ℝ => e.eval Real.sin Real.cos Real.arctan Real.sqrt (Function.update p i t))
          (d.gradient i) (p i) := by
  induction e with
  | var j =>
    refine ⟨_, DVariable_fin j (p j), rfl, fun i => ?_⟩
    by_cases hij : i = j
    · subst hij
      simpa [Expr.eval] using hasDerivAt_id (p i)
    · have hji : j ≠ i := fun h => hij h.symm
      simpa [Expr.eval, Function.update_noteq hji, Function.update_noteq hij, Vector.Zero]
        using hasDerivAt_const (p i) (p j)
  | const c =>
    exact ⟨_, rfl, rfl, fun i => by simpa [Expr.eval] using hasDerivAt_const (p i) c⟩
  | add a b iha ihb =>
    obtain ⟨da, hda, hva, hga⟩ := iha h.1
    obtain ⟨db, hdb, hvb, hgb⟩ := ihb h.2
    refine ⟨da + db, by simp [Expr.dual, hda, hdb], ?_, fun i => ?_⟩
    · show da.value + db.value = _
      rw [hva, hvb]; rfl
    · exact (hga i).add (hgb i)
  | sub a b iha ihb =>
    obtain ⟨da, hda, hva, hga⟩ := iha h.1
    obtain ⟨db, hdb, hvb, hgb⟩ := ihb h.2
    refine ⟨da - db, by simp [Expr.dual, hda, hdb], ?_, fun i => ?_⟩
    · show da.value - db.value = _
      rw [hva, hvb]; rfl
    · exact (hga i).sub (hgb i)
  | mul a b iha ihb =>
    obtain ⟨da, hda, hva, hga⟩ := iha h.1
    obtain ⟨db, hdb, hvb, hgb⟩ := ihb h.2
    refine ⟨da * db, by simp [Expr.dual, hda, hdb], ?_, fun i => ?_⟩
    · show da.value * db.value = _
      rw [hva, hvb]; rfl
    · have hm := (hga i).mul (hgb i)
      simp only [update_self_point] at hm
      refine hm.congr_deriv ?_
      show _ = da.value * db.gradient i + db.value * da.gradient i
      rw [hva, hvb]; ring
  | div a b iha ihb =>
    obtain ⟨da, hda, hva, hga⟩ := iha h.1
    obtain ⟨db, hdb, hvb, hgb⟩ := ihb h.2.1
    refine ⟨da / db, by simp [Expr.dual, hda, hdb], ?_, fun i => ?_⟩
    · show da.value / db.value = _
      rw [hva, hvb]; rfl
    · have hne : Expr.eval Real.sin Real.cos Real.arctan Real.sqrt (Function.update p i (p i)) b
          ≠ 0 := by
        rw [update_self_point]; exact h.2.2
      have hm := (hga i).div (hgb i) hne
      simp only [update_self_point] at hm
      refine hm.congr_deriv ?_
      show _ = (db.value * da.gradient i - da.value * db.gradient i) / (db.value * db.value)
      rw [hva, hvb, pow_two]; ring
  | neg a iha =>
    obtain ⟨da, hda, hva, hga⟩ := iha h
    refine ⟨-da, by simp [Expr.dual, hda], ?_, fun i => ?_⟩
    · show -da.value = _
      rw [hva]; rfl
    · exact (hga i).neg
  | sin a iha =>
    obtain ⟨da, hda, hva, hga⟩ := iha h
    refine ⟨DValue.sin Real.sin Real.cos da, by simp [Expr.dual, hda], ?_, fun i => ?_⟩
    · show Real.sin da.value = _
      rw [hva]; rfl
    · have hm := (hga i).sin
      simp only [update_self_point] at hm
      refine hm.congr_deriv ?_
      show _ = Real.cos da.value * da.gradient i
      rw [hva]
  | cos a iha =>
    obtain ⟨da, hda, hva, hga⟩ := iha h
    refine ⟨DValue.cos Real.sin Real.cos da, by simp [Expr.dual, hda], ?_, fun i => ?_⟩
    · show Real.cos da.value = _
      rw [hva]; rfl
    · have hm := (hga i).cos
      simp only [update_self_point] at hm
      refine hm.congr_deriv ?_
      show _ = -Real.sin da.value * da.gradient i
      rw [hva]
  | atan a iha =>
    obtain ⟨da, hda, hva, hga⟩ := iha h
    refine ⟨DValue.atan Real.arctan da, by simp [Expr.dual, hda], ?_, fun i => ?_⟩
    · show Real.arctan da.value = _
      rw [hva]; rfl
    · have hm := (hga i).arctan
      simp only [update_self_point] at hm
      refine hm.congr_deriv ?_
      show _ = 1 / (1 + da.value * da.value) * da.gradient i
      rw [hva, pow_two]
  | sqrt a iha =>
    obtain ⟨da, hda, hva, hga⟩ := iha h.1
    refine ⟨DValue.sqrt Real.sqrt da, by simp [Expr.dual, hda], ?_, fun i => ?_⟩
    · show Real.sqrt da.value = _
      rw [hva]; rfl
    · have hne : Expr.eval Real.sin Real.cos Real.arctan Real.sqrt (Function.update p i (p i)) a
          ≠ 0 := by
        rw [update_self_point]; exact ne_of_gt h.2
      have hm := (hga i).sqrt hne
      simp only [update_self_point] at hm
      refine hm.congr_deriv ?_
      show _ = 1 / 2 / Real.sqrt da.value * da.gradient i
      rw [hva]; ring

/-- Witness for C1: the expression `sqrt(x*x + y*y) / x` at the point `(1, 2)`. -/
theorem forward_mode_correct_witness :
    ∃ d : DValue ℝ 2,
      (Expr.div (Expr.sqrt (Expr.add (Expr.mul (Expr.var 0) (Expr.var 0))
          (Expr.mul (Expr.var 1) (Expr.var 1)))) (Expr.var 0) : Expr ℝ 2).dual
        Real.sin Real.cos Real.arctan Real.sqrt ![1, 2] = some d ∧
      d.value = (Expr.div (Expr.sqrt (Expr.add (Expr.mul (Expr.var 0) (Expr.var 0))
          (Expr.mul (Expr.var 1) (Expr.var 1)))) (Expr.var 0) : Expr ℝ 2).eval
        Real.sin Real.cos Real.arctan Real.sqrt ![1, 2] ∧
      ∀ i : Fin 2,
        HasDerivAt
          (fun t : ℝ => (Expr.div (Expr.sqrt (Expr.add (Expr.mul (Expr.var 0) (Expr.var 0))
              (Expr.mul (Expr.var 1) (Expr.var 1)))) (Expr.var 0) : Expr ℝ 2).eval
            Real.sin Real.cos Real.arctan Real.sqrt (Function.update ![1, 2] i t))
          (d.gradient i) ((![1, 2] : Fin 2 → ℝ) i) :=
  forward_mode_correct 2 ![1, 2]
    (Expr.div (Expr.sqrt (Expr.add (Expr.mul (Expr.var 0) (Expr.var 0))
      (Expr.mul (Expr.var 1) (Expr.var 1)))) (Expr.var 0))
    (by
      simp only [Expr.Admissible, Expr.eval]
      refine ⟨⟨⟨⟨trivial, trivial⟩, ⟨trivial, trivial⟩⟩, ?_⟩, trivial, ?_⟩
      · norm_num
      · norm_num)

/-! ## Scalar operands -/

/-- C11: a scalar operand behaves exactly as a dual value with zero gradient.
Over a field `T`, for every scalar `c` and dual value `d`, each of `c + d`,
`d + c`, `c - d`, `d - c`, `c * d`, `d * c`, and, when the value of the divisor
is nonzero, `c / d` and `d / c`, equals in value and gradient the dual-dual
operator applied with `DValue(c)` in place of `c`. -/
theorem scalar_operand_eq_lift (T : Type) [Field T] (n : Nat) (c : T) (d : DValue T n) :
    DValue.scalar_add c d = DValue.ofScalar c + d ∧
      DValue.add_scalar d c = d + DValue.ofScalar c ∧
      DValue.scalar_sub c d = DValue.ofScalar c - d ∧
      DValue.sub_scalar d c = d - DValue.ofScalar c ∧
      DValue.scalar_mul c d = DValue.ofScalar c * d ∧
      DValue.mul_scalar d c = d * DValue.ofScalar c ∧
      (d.value ≠ 0 → DValue.scalar_div c d = DValue.ofScalar c / d) ∧
      (c ≠ 0 → DValue.div_scalar d c = d / DValue.ofScalar c) := by
  refine ⟨?_, ?_, ?_, ?_, ?_, ?_, ?_, ?_⟩
  · refine DValue.eq_of rfl fun j => ?_
    show d.gradient j = 0 + d.gradient j
    rw [zero_add]
  · refine DValue.eq_of ?_ fun j => ?_
    · show c + d.value = d.value + c
      rw [add_comm]
    · show d.gradient j = d.gradient j + 0
      rw [add_zero]
  · refine DValue.eq_of rfl fun j => ?_
    show -d.gradient j = 0 - d.gradient j
    rw [zero_sub]
  · refine DValue.eq_of rfl fun j => ?_
    show d.gradient j = d.gradient j - 0
    rw [sub_zero]
  · refine DValue.eq_of rfl fun j => ?_
    show c * d.gradient j = c * d.gradient j + d.value * 0
    rw [mul_zero, add_zero]
  · refine DValue.eq_of ?_ fun j => ?_
    · show c * d.value = d.value * c
      rw [mul_comm]
    · show c * d.gradient j = d.value * 0 + c * d.gradient j
      rw [mul_zero, zero_add]
  · intro hd
    refine DValue.eq_of rfl fun j => ?_
    show -c / d.value / d.value * d.gradient j
      = (d.value * 0 - c * d.gradient j) / (d.value * d.value)
    field_simp
  · intro hc
    refine DValue.eq_of rfl fun j => ?_
    show d.gradient j / c = (c * d.gradient j - d.value * 0) / (c * c)
    field_simp
    ring

/-- Witness for C11: the scalar `3` and the rational dual value `(2, [1, 0])`. -/
theorem scalar_operand_eq_lift_witness :
    ((⟨2, ![1, 0]⟩ : DValue ℚ 2).value ≠ 0 ∧ (3 : ℚ) ≠ 0) ∧
      DValue.scalar_div (3 : ℚ) (⟨2, ![1, 0]⟩ : DValue ℚ 2)
        = DValue.ofScalar 3 / (⟨2, ![1, 0]⟩ : DValue ℚ 2) ∧
      DValue.div_scalar (⟨2, ![1, 0]⟩ : DValue ℚ 2) 3
        = (⟨2, ![1, 0]⟩ : DValue ℚ 2) / DValue.ofScalar 3 :=
  have h2 : (⟨2, ![1, 0]⟩ : DValue ℚ 2).value ≠ 0 := by
    show (2 : ℚ) ≠ 0
    norm_num
  have h3 : (3 : ℚ) ≠ 0 := by norm_num
  ⟨⟨h2, h3⟩,
    (scalar_operand_eq_lift ℚ 2 3 ⟨2, ![1, 0]⟩).2.2.2.2.2.2.1 h2,
    (scalar_operand_eq_lift ℚ 2 3 ⟨2, ![1, 0]⟩).2.2.2.2.2.2.2 h3⟩

/-! ## Matrix lift and scalar traits -/

/-- C15: matrix lift. For every `rows × cols` matrix `M` of scalars and every
dimension `n`, `toDValue<n>(M)` is a `rows × cols` matrix of dual values whose
entry at every position `(r, c)` has value `M[r][c]` and an all-zero gradient
of length `n`: it is the constant lift `DValue(M[r][c])`. -/
theorem toDValue_entries (T : Type) [Zero T] (n rows cols : Nat) (M : Matrix T rows cols)
    (r : Fin rows) (c : Fin cols) :
    (toDValue n M r c).value = M r c ∧
      (∀ j : Fin n, (toDValue n M r c).gradient j = 0) ∧
      toDValue n M r c = DValue.ofScalar (M r c) :=
  ⟨rfl, fun _ => rfl, rfl⟩

/-- C16: the scalar-trait descriptor of `DValue<T, n>` declares, for every `T`
and `n`: `Real` and `NonInteger` are `DValue<T, n>` itself, `IsComplex = 0`,
`IsInteger = 0`, `IsSigned = 1`, `RequireInitialization = 1`, and the cost
hints `ReadCost`, `AddCost`, `MulCost` are positive integers with
`AddCost > ReadCost` and `MulCost > ReadCost`. -/
theorem NumTraits_DValue_declares (T : Type) (n : Nat) :
    (NumTraits_DValue T n).Real = DValue T n ∧
      (NumTraits_DValue T n).NonInteger = DValue T n ∧
      (NumTraits_DValue T n).IsComplex = 0 ∧
      (NumTraits_DValue T n).IsInteger = 0 ∧
      (NumTraits_DValue T n).IsSigned = 1 ∧
      (NumTraits_DValue T n).RequireInitialization = 1 ∧
      0 < (NumTraits_DValue T n).ReadCost ∧
      0 < (NumTraits_DValue T n).AddCost ∧
      0 < (NumTraits_DValue T n).MulCost ∧
      (NumTraits_DValue T n).ReadCost < (NumTraits_DValue T n).AddCost ∧
      (NumTraits_DValue T n).ReadCost < (NumTraits_DValue T n).MulCost := by
  refine ⟨rfl, rfl, rfl, rfl, rfl, rfl, ?_, ?_, ?_, ?_, ?_⟩ <;>
    simp [NumTraits_DValue]

/-! ## Algebraic laws -/

/-- C17: whenever the scalar type `T` is a commutative ring, the dual values
of a fixed dimension `n` with the dual-dual operators `+`, unary `-`, binary
`-`, `*` and the constants `DValue(0)`, `DValue(1)` satisfy the commutative-ring
axioms: `+` and `*` are associative and commutative, `*` distributes over `+`,
`DValue(0)` is the additive and `DValue(1)` the multiplicative identity,
`a + (-a) = DValue(0)` and `a - b = a + (-b)`; and the constant lift is a ring
homomorphism: `DValue(c) + DValue(d) = DValue(c + d)` and
`DValue(c) * DValue(d) = DValue(c * d)`. -/
theorem dual_values_commutative_ring (T : Type) [CommRing T] (n : Nat) :
    (∀ a b c : DValue T n, a + b + c = a + (b + c)) ∧
      (∀ a b : DValue T n, a + b = b + a) ∧
      (∀ a b c : DValue T n, a * b * c = a * (b * c)) ∧
      (∀ a b : DValue T n, a * b = b * a) ∧
      (∀ a b c : DValue T n, a * (b + c) = a * b + a * c) ∧
      (∀ a b c : DValue T n, (a + b) * c = a * c + b * c) ∧
      (∀ a : DValue T n, DValue.ofScalar 0 + a = a ∧ a + DValue.ofScalar 0 = a) ∧
      (∀ a : DValue T n, DValue.ofScalar 1 * a = a ∧ a * DValue.ofScalar 1 = a) ∧
      (∀ a : DValue T n, a + -a = DValue.ofScalar 0) ∧
      (∀ a b : DValue T n, a - b = a + -b) ∧
      (∀ c d : T, (DValue.ofScalar c + DValue.ofScalar d : DValue T n)
        = DValue.ofScalar (c + d)) ∧
      (∀ c d : T, (DValue.ofScalar c * DValue.ofScalar d : DValue T n)
        = DValue.ofScalar (c * d)) := by
  refine ⟨?_, ?_, ?_, ?_, ?_, ?_, ?_, ?_, ?_, ?_, ?_, ?_⟩
  · intro a b c
    refine DValue.eq_of ?_ fun j => ?_
    · show a.value + b.value + c.value = a.value + (b.value + c.value)
      ring
    · show a.gradient j + b.gradient j + c.gradient j
        = a.gradient j + (b.gradient j + c.gradient j)
      ring
  · intro a b
    refine DValue.eq_of ?_ fun j => ?_
    · show a.value + b.value = b.value + a.value
      ring
    · show a.gradient j + b.gradient j = b.gradient j + a.gradient j
      ring
  · intro a b c
    refine DValue.eq_of ?_ fun j => ?_
    · show a.value * b.value * c.value = a.value * (b.value * c.value)
      ring
    · show a.value * b.value * c.gradient j
          + c.value * (a.value * b.gradient j + b.value * a.gradient j)
        = a.value * (b.value * c.gradient j + c.value * b.gradient j)
          + b.value * c.value * a.gradient j
      ring
  · intro a b
    refine DValue.eq_of ?_ fun j => ?_
    · show a.value * b.value = b.value * a.value
      ring
    · show a.value * b.gradient j + b.value * a.gradient j
        = b.value * a.gradient j + a.value * b.gradient j
      ring
  · intro a b c
    refine DValue.eq_of ?_ fun j => ?_
    · show a.value * (b.value + c.value) = a.value * b.value + a.value * c.value
      ring
    · show a.value * (b.gradient j + c.gradient j) + (b.value + c.value) * a.gradient j
        = a.value * b.gradient j + b.value * a.gradient j
          + (a.value * c.gradient j + c.value * a.gradient j)
      ring
  · intro a b c
    refine DValue.eq_of ?_ fun j => ?_
    · show (a.value + b.value) * c.value = a.value * c.value + b.value * c.value
      ring
    · show (a.value + b.value) * c.gradient j + c.value * (a.gradient j + b.gradient j)
        = a.value * c.gradient j + c.value * a.gradient j
          + (b.value * c.gradient j + c.value * b.gradient j)
      ring
  · intro a
    constructor
    · refine DValue.eq_of ?_ fun j => ?_
      · show 0 + a.value = a.value
        ring
      · show 0 + a.gradient j = a.gradient j
        ring
    · refine DValue.eq_of ?_ fun j => ?_
      · show a.value + 0 = a.value
        ring
      · show a.gradient j + 0 = a.gradient j
        ring
  · intro a
    constructor
    · refine DValue.eq_of ?_ fun j => ?_
      · show 1 * a.value = a.value
        ring
      · show 1 * a.gradient j + a.value * 0 = a.gradient j
        ring
    · refine DValue.eq_of ?_ fun j => ?_
      · show a.value * 1 = a.value
        ring
      · show a.value * 0 + 1 * a.gradient j = a.gradient j
        ring
  · intro a
    refine DValue.eq_of ?_ fun j => ?_
    · show a.value + -a.value = 0
      ring
    · show a.gradient j + -a.gradient j = 0
      ring
  · intro a b
    refine DValue.eq_of ?_ fun j => ?_
    · show a.value - b.value = a.value + -b.value
      ring
    · show a.gradient j - b.gradient j = a.gradient j + -b.gradient j
      ring
  · intro c d
    refine DValue.eq_of rfl fun j => ?_
    show (0 : T) + 0 = 0
    ring
  · intro c d
    refine DValue.eq_of rfl fun j => ?_
    show c * (0 : T) + d * 0 = 0
    ring

/-- C18: division undoes multiplication. Over a field `T`, for all dual values
`a`, `b` of the same dimension with `b.value ≠ 0`, `(a / b) * b = a` and
`(a * b) / b = a`, in value and in every gradient component. -/
theorem div_mul_cancel_dual (T : Type) [Field T] (n : Nat) (a b : DValue T n)
    (hb : b.value ≠ 0) :
    a / b * b = a ∧ a * b / b = a := by
  constructor
  · refine DValue.eq_of ?_ fun j => ?_
    · show a.value / b.value * b.value = a.value
      field_simp
    · show a.value / b.value * b.gradient j
          + b.value * ((b.value * a.gradient j - a.value * b.gradient j) / (b.value * b.value))
        = a.gradient j
      field_simp
      ring
  · refine DValue.eq_of ?_ fun j => ?_
    · show a.value * b.value / b.value = a.value
      field_simp
    · show (b.value * (a.value * b.gradient j + b.value * a.gradient j)
          - a.value * b.value * b.gradient j) / (b.value * b.value)
        = a.gradient j
      field_simp
      ring

/-- Witness for C18: `a = (3, [1, 0])` and `b = (2, [0, 1])` over the rationals. -/
theorem div_mul_cancel_dual_witness :
    (⟨3, ![1, 0]⟩ : DValue ℚ 2) / ⟨2, ![0, 1]⟩ * ⟨2, ![0, 1]⟩ = ⟨3, ![1, 0]⟩ ∧
      (⟨3, ![1, 0]⟩ : DValue ℚ 2) * ⟨2, ![0, 1]⟩ / ⟨2, ![0, 1]⟩ = ⟨3, ![1, 0]⟩ :=
  div_mul_cancel_dual ℚ 2 ⟨3, ![1, 0]⟩ ⟨2, ![0, 1]⟩ (by
    show (2 : ℚ) ≠ 0
    norm_num)

/-- C19: the transcendental rules are consistent with the arithmetic rules over
the reals. For every dual value `x`, `sin(x)*sin(x) + cos(x)*cos(x)` has value
`1` and an all-zero gradient, so it equals `DValue(1)`; and for every dual
value `x` with `x.value > 0`, `sqrt(x) * sqrt(x) = x` in value and in every
gradient component. -/
theorem sin_cos_sqrt_consistent (n : Nat) (x : DValue ℝ n) :
    ((DValue.sin Real.sin Real.cos x * DValue.sin Real.sin Real.cos x
        + DValue.cos Real.sin Real.cos x * DValue.cos Real.sin Real.cos x).value = 1 ∧
      (∀ j : Fin n, (DValue.sin Real.sin Real.cos x * DValue.sin Real.sin Real.cos x
        + DValue.cos Real.sin Real.cos x * DValue.cos Real.sin Real.cos x).gradient j = 0) ∧
      DValue.sin Real.sin Real.cos x * DValue.sin Real.sin Real.cos x
        + DValue.cos Real.sin Real.cos x * DValue.cos Real.sin Real.cos x
        = DValue.ofScalar 1) ∧
    (0 < x.value → DValue.sqrt Real.sqrt x * DValue.sqrt Real.sqrt x = x) := by
  have hv : Real.sin x.value * Real.sin x.value + Real.cos x.value * Real.cos x.value = 1 := by
    have h := Real.sin_sq_add_cos_sq x.value
    rw [pow_two, pow_two] at h
    exact h
  have hg : ∀ j : Fin n,
      Real.sin x.value * (Real.cos x.value * x.gradient j)
          + Real.sin x.value * (Real.cos x.value * x.gradient j)
        + (Real.cos x.value * (-Real.sin x.value * x.gradient j)
          + Real.cos x.value * (-Real.sin x.value * x.gradient j)) = 0 := by
    intro j
    ring
  refine ⟨⟨hv, hg, DValue.eq_of hv hg⟩, fun hx => ?_⟩
  have hs : Real.sqrt x.value * Real.sqrt x.value = x.value :=
    Real.mul_self_sqrt (le_of_lt hx)
  have hne : Real.sqrt x.value ≠ 0 := ne_of_gt (Real.sqrt_pos.mpr hx)
  refine DValue.eq_of hs fun j => ?_
  show Real.sqrt x.value * (1 / 2 / Real.sqrt x.value * x.gradient j)
      + Real.sqrt x.value * (1 / 2 / Real.sqrt x.value * x.gradient j) = x.gradient j
  field_simp
  ring

/-- Witness for C19: the real dual value `(4, [1, 0])`. -/
theorem sin_cos_sqrt_consistent_witness :
    0 < (⟨4, ![1, 0]⟩ : DValue ℝ 2).value ∧
      DValue.sqrt Real.sqrt (⟨4, ![1, 0]⟩ : DValue ℝ 2)
          * DValue.sqrt Real.sqrt (⟨4, ![1, 0]⟩ : DValue ℝ 2)
        = ⟨4, ![1, 0]⟩ :=
  have h4 : 0 < (⟨4, ![1, 0]⟩ : DValue ℝ 2).value := by
    show (0 : ℝ) < 4
    norm_num
  ⟨h4, (sin_cos_sqrt_consistent 2 ⟨4, ![1, 0]⟩).2 h4⟩

/-! ## Compound assignment -/

/-- C12, as the code has it: for every scalar type that has the four
operators (no law is assumed of them, so the floating types are among them),
every operator `op` of `+ - * /`, every memory and every left operand `a`:
after `a op= b` the object `a` holds exactly
the value and gradient of `a_old op b_old`, the returned reference denotes `a`,
and every object other than `a` is unchanged; so the right operand `b` is
unchanged whenever it is an object other than `a` (a scalar `b`: whenever it is
not a member of `a`). -/
theorem compound_assign_rebinds (T : Type) [Add T] [Sub T] [Mul T] [Div T] (n : Nat)
    (op : BinOp) (s : Memory T n) (a : Nat) :
    (∀ b : Nat,
      ((op.assign_dual s a b).1.dual (op.assign_dual s a b).2
          = op.dual_dual (s.dual a) (s.dual b) ∧
        (op.assign_dual s a b).2 = a ∧
        (∀ c : Nat, c ≠ a → (op.assign_dual s a b).1.dual c = s.dual c) ∧
        (op.assign_dual s a b).1.scalar = s.scalar) ∧
      (b ≠ a → (op.assign_dual s a b).1.dual b = s.dual b)) ∧
    (∀ b : ScalarRef n,
      ((op.assign_scalar s a b).1.dual (op.assign_scalar s a b).2
          = op.dual_scalar (s.dual a) (s.read b) ∧
        (op.assign_scalar s a b).2 = a ∧
        (∀ c : Nat, c ≠ a → (op.assign_scalar s a b).1.dual c = s.dual c) ∧
        (op.assign_scalar s a b).1.scalar = s.scalar) ∧
      (¬ b.memberOf a → (op.assign_scalar s a b).1.read b = s.read b)) := by
  constructor
  · intro b
    have key : ∀ d : DValue T n,
        ((s.assign a d).dual a = d ∧ a = a ∧
          (∀ c : Nat, c ≠ a → (s.assign a d).dual c = s.dual c) ∧
          (s.assign a d).scalar = s.scalar) ∧
        (b ≠ a → (s.assign a d).dual b = s.dual b) := by
      intro d
      refine ⟨⟨?_, rfl, fun c hc => ?_, rfl⟩, fun hb => ?_⟩
      · simp [Memory.assign]
      · simp [Memory.assign, Function.update_noteq hc]
      · simp [Memory.assign, Function.update_noteq hb]
    cases op
    · exact key _
    · exact key _
    · exact key _
    · exact key _
  · intro b
    have key : ∀ d : DValue T n,
        ((s.assign a d).dual a = d ∧ a = a ∧
          (∀ c : Nat, c ≠ a → (s.assign a d).dual c = s.dual c) ∧
          (s.assign a d).scalar = s.scalar) ∧
        (¬ b.memberOf a → (s.assign a d).read b = s.read b) := by
      intro d
      refine ⟨⟨?_, rfl, fun c hc => ?_, rfl⟩, fun hb => ?_⟩
      · simp [Memory.assign]
      · simp [Memory.assign, Function.update_noteq hc]
      · cases b with
        | scalar x => rfl
        | value c =>
          have hc : c ≠ a := hb
          simp [Memory.read, Memory.assign, Function.update_noteq hc]
        | gradient c j =>
          have hc : c ≠ a := hb
          simp [Memory.read, Memory.assign, Function.update_noteq hc]
    cases op
    · exact key _
    · exact key _
    · exact key _
    · exact key _

/-- Witness for C12. Over the rationals: `x += y` and `x += c` on a memory where
every dual object is `(1, [1])` and every scalar object is `5`, with `x` at
address `0`, `y` at address `1` and `c` the scalar object `0`. Over the
binary64 type `Float`: `x /= y` on a memory where every dual object is
`(2, [1])`. -/
theorem compound_assign_rebinds_witness :
    ((BinOp.add.assign_dual (⟨fun _ => ⟨1, ![1]⟩, fun _ => 5⟩ : Memory ℚ 1) 0 1).1.dual 1
        = (⟨1, ![1]⟩ : DValue ℚ 1) ∧
      (BinOp.add.assign_scalar (⟨fun _ => ⟨1, ![1]⟩, fun _ => 5⟩ : Memory ℚ 1) 0
          (ScalarRef.scalar 0)).1.read (ScalarRef.scalar 0) = 5) ∧
    ((BinOp.div.assign_dual (⟨fun _ => ⟨2, ![1]⟩, fun _ => 5⟩ : Memory Float 1) 0 1).1.dual
          (BinOp.div.assign_dual (⟨fun _ => ⟨2, ![1]⟩, fun _ => 5⟩ : Memory Float 1) 0 1).2
        = (⟨2, ![1]⟩ : DValue Float 1) / ⟨2, ![1]⟩ ∧
      (BinOp.div.assign_dual (⟨fun _ => ⟨2, ![1]⟩, fun _ => 5⟩ : Memory Float 1) 0 1).1.dual 1
        = (⟨2, ![1]⟩ : DValue Float 1)) :=
  ⟨⟨((compound_assign_rebinds ℚ 1 BinOp.add ⟨fun _ => ⟨1, ![1]⟩, fun _ => 5⟩ 0).1 1).2
        (by decide),
      ((compound_assign_rebinds ℚ 1 BinOp.add ⟨fun _ => ⟨1, ![1]⟩, fun _ => 5⟩ 0).2
        (ScalarRef.scalar 0)).2 (fun h => h)⟩,
    ((compound_assign_rebinds Float 1 BinOp.div ⟨fun _ => ⟨2, ![1]⟩, fun _ => 5⟩ 0).1 1).1.1,
    ((compound_assign_rebinds Float 1 BinOp.div ⟨fun _ => ⟨2, ![1]⟩, fun _ => 5⟩ 0).1 1).2
      (by decide)⟩

/-- C12 fails as stated when the right operand is the left operand itself:
with `x = (1, [1])`, after `x += x` the object holds `(2, [2])`, so the right
operand `b`, which is `x`, is not unchanged. -/
theorem compound_assign_alias_changes_operand :
    ¬ ((add_assign (⟨fun _ => ⟨1, ![1]⟩, fun _ => 0⟩ : Memory ℚ 1) 0 0).1.dual
          (add_assign (⟨fun _ => ⟨1, ![1]⟩, fun _ => 0⟩ : Memory ℚ 1) 0 0).2
        = (⟨1, ![1]⟩ : DValue ℚ 1) + ⟨1, ![1]⟩ ∧
      (add_assign (⟨fun _ => ⟨1, ![1]⟩, fun _ => 0⟩ : Memory ℚ 1) 0 0).2 = 0 ∧
      (add_assign (⟨fun _ => ⟨1, ![1]⟩, fun _ => 0⟩ : Memory ℚ 1) 0 0).1.dual 0
        = (⟨1, ![1]⟩ : DValue ℚ 1)) := by
  rintro ⟨_, _, h⟩
  have h2 : (1 : ℚ) + 1 = 1 := congrArg DValue.value h
  norm_num at h2

/-! ## The polar-coordinate scenario -/

/-- C13: polar coordinates over the reals. For every `x ≠ 0` and every `y`,
with `n = 2`, `X = DVariable(0, x)`, `Y = DVariable(1, y)`,
`r = sqrt(X*X + Y*Y)` and `angle = atan(Y/X)`: `r.value = sqrt(x^2 + y^2)`,
`angle.value = atan(y/x)`, and `jacobianFromVector([r, angle])` is
`[[x/r.value, y/r.value], [-y/(x^2+y^2), x/(x^2+y^2)]]`; at `x = 1`, `y = 2`
this is `[[1/sqrt 5, 2/sqrt 5], [-0.4, 0.2]]`. -/
theorem polar_jacobian :
    (∀ (x y : ℝ) (J0 : Matrix ℝ 2 2), x ≠ 0 →
      ∃ (X Y : DValue ℝ 2) (J : Matrix ℝ 2 2),
        DVariable 0 x = some X ∧ DVariable 1 y = some Y ∧
        (DValue.sqrt Real.sqrt (X * X + Y * Y)).value = Real.sqrt (x ^ 2 + y ^ 2) ∧
        (DValue.atan Real.arctan (Y / X)).value = Real.arctan (y / x) ∧
        jacobianFromVector J0
            ![DValue.sqrt Real.sqrt (X * X + Y * Y), DValue.atan Real.arctan (Y / X)]
          = some J ∧
        J = ![![x / (DValue.sqrt Real.sqrt (X * X + Y * Y)).value,
                y / (DValue.sqrt Real.sqrt (X * X + Y * Y)).value],
              ![-y / (x ^ 2 + y ^ 2), x / (x ^ 2 + y ^ 2)]]) ∧
    (∀ J0 : Matrix ℝ 2 2,
      ∃ (X Y : DValue ℝ 2) (J : Matrix ℝ 2 2),
        DVariable 0 1 = some X ∧ DVariable 1 2 = some Y ∧
        jacobianFromVector J0
            ![DValue.sqrt Real.sqrt (X * X + Y * Y), DValue.atan Real.arctan (Y / X)]
          = some J ∧
        J = ![![1 / Real.sqrt 5, 2 / Real.sqrt 5], ![-0.4, 0.2]]) := by
  have main : ∀ (x y : ℝ) (J0 : Matrix ℝ 2 2), x ≠ 0 →
      ∃ (X Y : DValue ℝ 2) (J : Matrix ℝ 2 2),
        DVariable 0 x = some X ∧ DVariable 1 y = some Y ∧
        (DValue.sqrt Real.sqrt (X * X + Y * Y)).value = Real.sqrt (x ^ 2 + y ^ 2) ∧
        (DValue.atan Real.arctan (Y / X)).value = Real.arctan (y / x) ∧
        jacobianFromVector J0
            ![DValue.sqrt Real.sqrt (X * X + Y * Y), DValue.atan Real.arctan (Y / X)]
          = some J ∧
        J = ![![x / (DValue.sqrt Real.sqrt (X * X + Y * Y)).value,
                y / (DValue.sqrt Real.sqrt (X * X + Y * Y)).value],
              ![-y / (x ^ 2 + y ^ 2), x / (x ^ 2 + y ^ 2)]] := by
    intro x y J0 hx
    have hpos : 0 < x * x + y * y :=
      add_pos_of_pos_of_nonneg (mul_self_pos.mpr hx) (mul_self_nonneg y)
    have hsq : Real.sqrt (x * x + y * y) ≠ 0 := ne_of_gt (Real.sqrt_pos.mpr hpos)
    have hsum : x ^ 2 + y ^ 2 ≠ 0 := by
      have : x ^ 2 + y ^ 2 = x * x + y * y := by ring
      rw [this]
      exact ne_of_gt hpos
    refine ⟨_, _, _, DVariable_fin (0 : Fin 2) x, DVariable_fin (1 : Fin 2) y, ?_, rfl,
      jacobianFromVector_eq J0 _ (by decide), ?_⟩
    · show Real.sqrt (x * x + y * y) = Real.sqrt (x ^ 2 + y ^ 2)
      rw [pow_two, pow_two]
    · funext i j
      fin_cases i
      · show 1 / 2 / Real.sqrt (x * x + y * y)
            * (x * Function.update (Vector.Zero : Vector ℝ 2) 0 1 j
                + x * Function.update (Vector.Zero : Vector ℝ 2) 0 1 j
              + (y * Function.update (Vector.Zero : Vector ℝ 2) 1 1 j
                + y * Function.update (Vector.Zero : Vector ℝ 2) 1 1 j))
          = ![x / Real.sqrt (x * x + y * y), y / Real.sqrt (x * x + y * y)] j
        fin_cases j
        · simp [Vector.Zero]
          field_simp
          ring
        · simp [Vector.Zero]
          field_simp
          ring
      · show 1 / (1 + y / x * (y / x))
            * ((x * Function.update (Vector.Zero : Vector ℝ 2) 1 1 j
                - y * Function.update (Vector.Zero : Vector ℝ 2) 0 1 j) / (x * x))
          = ![-y / (x ^ 2 + y ^ 2), x / (x ^ 2 + y ^ 2)] j
        have hden : 1 + y / x * (y / x) ≠ 0 := by
          have : 1 + y / x * (y / x) = (x ^ 2 + y ^ 2) / (x * x) := by
            field_simp
            ring
          rw [this]
          exact div_ne_zero hsum (mul_ne_zero hx hx)
        fin_cases j
        · simp [Vector.Zero]
          field_simp
          ring
        · simp [Vector.Zero]
          field_simp
          ring
  refine ⟨main, fun J0 => ?_⟩
  obtain ⟨X, Y, J, hX, hY, hr, _, hJ, hJeq⟩ := main 1 2 J0 one_ne_zero
  refine ⟨X, Y, J, hX, hY, hJ, ?_⟩
  rw [hJeq, hr]
  have h5 : (1 : ℝ) ^ 2 + 2 ^ 2 = 5 := by norm_num
  rw [h5]
  norm_num

/-- Witness for C13: the point `(3, 4)`. -/
theorem polar_jacobian_witness :
    ∃ (X Y : DValue ℝ 2) (J : Matrix ℝ 2 2),
      DVariable 0 3 = some X ∧ DVariable 1 4 = some Y ∧
      (DValue.sqrt Real.sqrt (X * X + Y * Y)).value = Real.sqrt (3 ^ 2 + 4 ^ 2) ∧
      (DValue.atan Real.arctan (Y / X)).value = Real.arctan (4 / 3) ∧
      jacobianFromVector (fun _ _ => 0)
          ![DValue.sqrt Real.sqrt (X * X + Y * Y), DValue.atan Real.arctan (Y / X)]
        = some J ∧
      J = ![![3 / (DValue.sqrt Real.sqrt (X * X + Y * Y)).value,
              4 / (DValue.sqrt Real.sqrt (X * X + Y * Y)).value],
            ![-4 / (3 ^ 2 + 4 ^ 2), 3 / (3 ^ 2 + 4 ^ 2)]] :=
  polar_jacobian.1 3 4 (fun _ _ => 0) (by norm_num)

/-! ## Which calls return -/

/-- C20: index safety under preconditions. `jacobianFromVector` reads `v[0]`
before its loop, so on a vector with `m ≥ 1` entries every element it reads
(`v[0]` and `v[i]` for `i < m`) and every row it writes (row `i` for `i < m`)
is in range, and it returns exactly when `m ≥ 1`; `DVariable(i, x)` writes
`gradient[i]` in range, and returns, exactly when `0 ≤ i < n`. -/
theorem index_safety (T : Type) [Zero T] [One T] (n m : Nat) :
    (∀ (i : Int) (x : T),
      ((∃ g : Vector T n, Vector.setCoeff (Vector.Zero : Vector T n) i 1 = some g)
          ↔ (0 ≤ i ∧ i < (n : Int))) ∧
        ((∃ d : DValue T n, DVariable i x = some d) ↔ (0 ≤ i ∧ i < (n : Int)))) ∧
    (∀ (J0 : Matrix T m n) (v : Vector (DValue T n) m),
      ((∃ J : Matrix T m n, jacobianFromVector J0 v = some J) ↔ 1 ≤ m) ∧
        ((∃ d : DValue T n, Vector.coeff v 0 = some d) ↔ 1 ≤ m) ∧
        (∀ i : Nat, i < m →
          (∃ d : DValue T n, Vector.coeff v (i : Int) = some d) ∧
            ∀ (J : Matrix T m n) (r : Vector T n),
              ∃ K : Matrix T m n, Matrix.setRow J (i : Int) r = some K)) := by
  refine ⟨fun i x => ⟨Vector.setCoeff_isSome_iff _ i 1, DVariable_isSome_iff i x⟩,
    fun J0 v => ⟨jacobianFromVector_isSome_iff J0 v, ?_, fun i hi => ⟨?_, fun J r => ?_⟩⟩⟩
  · rw [Vector.coeff_isSome_iff]
    constructor
    · intro h
      omega
    · intro h
      omega
  · exact ⟨_, Vector.coeff_fin v ⟨i, hi⟩⟩
  · exact ⟨_, Matrix.setRow_fin J ⟨i, hi⟩ r⟩

/-- Witness for C20: row `1` of a vector of two rational dual values of
dimension `2`. -/
theorem index_safety_witness :
    (∃ d : DValue ℚ 2,
        Vector.coeff (![⟨5, ![1, 2]⟩, ⟨6, ![3, 4]⟩] : Vector (DValue ℚ 2) 2) ((1 : Nat) : Int)
          = some d) ∧
      ∀ (J : Matrix ℚ 2 2) (r : Vector ℚ 2),
        ∃ K : Matrix ℚ 2 2, Matrix.setRow J ((1 : Nat) : Int) r = some K :=
  ((index_safety ℚ 2 2).2 (fun _ _ => 0) ![⟨5, ![1, 2]⟩, ⟨6, ![3, 4]⟩]).2.2 1 (by decide)

end DerivativeValue
